import Mathlib

/-!
# Verification of the Indico FileManager upload widget

Shallow embedding of the room-booking file-upload/management widget
(`src/indico/modules/rb/client/js/modules/blockings/index.js`, the
`FileManager` part) and of the registry reducer, selectors and upload
coordinator it uses.  The reducer, actions, selectors and coordinator
modules are imported by the widget but their source is not part of this
repository snapshot; those definitions are modelled from the spec
(sections 4.2, 4.3, 4.4 and 6) and are marked as such in their doc
comments.  Everything else is translated directly from the JS source.
-/

namespace FileManager

/-- Lifecycle state of a file in the registry.  `added`/`modified`/`deleted`
are the explicit JS string states; `initial` stands for a file seeded from
the form's initial value, which in JS carries no `state` field (so its
`state` is `undefined`, distinct from the three strings). -/
inductive FileState
  | added
  | modified
  | deleted
  | initial
deriving DecidableEq, Repr

/-- A File entity of the registry: uuid (server-assigned identity),
display filename, lifecycle state. -/
structure FMFile where
  uuid : String
  filename : String
  state : FileState
deriving DecidableEq, Repr

/-- A FileType (category): id, whether it accepts several files, its
ordered file list, the ordered list of invalid (template-rejected)
filenames, and the optional filename template (present or not; the
compiled matcher is passed separately where it is used). -/
structure FileType where
  id : Nat
  allowMultipleFiles : Bool
  files : List FMFile
  invalidFiles : List String
  hasFilenameTemplate : Bool
deriving DecidableEq, Repr

/-- A transient Upload entry: owning category id, in-flight filename and
progress percentage. -/
structure Upload where
  fileTypeId : Nat
  filename : String
  progress : Nat
deriving DecidableEq, Repr

/-- The registry state held by the `useReducer` hook in `FileManager`:
per-category file lists, pending uploads, and the dirty flag. -/
structure FMState where
  fileTypes : List FileType
  uploads : List Upload
  isDirty : Bool
deriving DecidableEq, Repr

/-- The closed set of reducer actions (spec §4.3 and §9). -/
inductive Action
  | reset (fileTypes : List FileType)
  | markUploaded (fileTypeId : Nat) (uuid : String) (filename : String)
  | markModified (fileTypeId : Nat) (uuid : String) (filename : String) (replacedUuid : String)
  | invalidTemplate (fileTypeId : Nat) (filename : String)
  | startUpload (fileTypeId : Nat) (filename : String)
  | progress (fileTypeId : Nat) (percent : Nat)
  | markFailed (fileTypeId : Nat)
  | clearDirty
deriving DecidableEq, Repr

/-- Apply an update to every category with the given id, leaving the
others untouched. -/
def updateFileType (fts : List FileType) (ftId : Nat) (g : FileType → FileType) :
    List FileType :=
  fts.map fun ft => if ft.id = ftId then g ft else ft

/-- Modelled from the spec: the registry reducer (`./reducer`, not in the
snapshot).  Spec §4.3: `reset` replaces the whole state, clears uploads and
dirty; `markUploaded` appends a File with state `added` and removes the
matching Upload, setting dirty; `markModified` replaces the matching file
with a state-`modified` File, setting dirty; `invalidTemplate` appends to
the category's invalid list without touching dirty; progress updates do not
set dirty; `clearDirty` resets the flag.  Upload entries are created on
drop-accept and destroyed on completion or failure (spec §3). -/
def reducer (s : FMState) (a : Action) : FMState :=
  match a with
  | .reset fts => { fileTypes := fts, uploads := [], isDirty := false }
  | .markUploaded ftId uuid filename =>
      { s with
        fileTypes := updateFileType s.fileTypes ftId fun ft =>
          { ft with files := ft.files ++ [⟨uuid, filename, .added⟩] }
        uploads := s.uploads.filter fun u => u.fileTypeId ≠ ftId
        isDirty := true }
  | .markModified ftId uuid filename replacedUuid =>
      { s with
        fileTypes := updateFileType s.fileTypes ftId fun ft =>
          { ft with files := ft.files.map fun f =>
              if f.uuid = replacedUuid then ⟨uuid, filename, .modified⟩ else f }
        uploads := s.uploads.filter fun u => u.fileTypeId ≠ ftId
        isDirty := true }
  | .invalidTemplate ftId filename =>
      { s with
        fileTypes := updateFileType s.fileTypes ftId fun ft =>
          { ft with invalidFiles := ft.invalidFiles ++ [filename] } }
  | .startUpload ftId filename =>
      { s with uploads := s.uploads ++ [⟨ftId, filename, 0⟩] }
  | .progress ftId percent =>
      { s with
        uploads := s.uploads.map fun u =>
          if u.fileTypeId = ftId then { u with progress := percent } else u }
  | .markFailed ftId =>
      { s with uploads := s.uploads.filter fun u => u.fileTypeId ≠ ftId }
  | .clearDirty => { s with isDirty := false }

/-- Apply a dispatched action list left to right (the single-threaded
event loop serialises reducer applications). -/
def applyActions (s : FMState) (acts : List Action) : FMState :=
  acts.foldl reducer s

/-- Modelled from the spec: selector `getUploadedFileUUIDs` (`./selectors`,
not in the snapshot).  Spec §4.4/§8: the UUIDs of every file currently
marked uploaded (`added`) or `modified`, across all categories, in order. -/
def getUploadedFileUUIDs (s : FMState) : List String :=
  (s.fileTypes.map fun ft =>
    (ft.files.filter fun f => f.state = .added ∨ f.state = .modified).map
      FMFile.uuid).flatten

/-- Modelled from the spec: selector `getFiles` (`./selectors`, not in the
snapshot).  Spec §6: the value presented to the form is the ordered set of
currently present file UUIDs across all categories. -/
def getFiles (s : FMState) : List String :=
  (s.fileTypes.map fun ft => ft.files.map FMFile.uuid).flatten

/-- Modelled from the spec: selector `isUploading` (`./selectors`, not in
the snapshot).  Spec §4.4: a boolean "still uploading" derived from the
pending uploads. -/
def isUploading (s : FMState) : Bool :=
  !s.uploads.isEmpty

/-- Modelled from the spec: selector `getValidationError` (`./selectors`,
not in the snapshot).  Spec §4.4/§7: a human-readable string when any
category has pending invalid files, otherwise null. -/
def getValidationError (s : FMState) : Option String :=
  if s.fileTypes.any fun ft => !ft.invalidFiles.isEmpty then
    some "Some files have invalid names"
  else none

/-! ## JavaScript string primitives used by `getFilesFromEvent`

`file.name.slice(0, file.name.indexOf('.'))` relies on two JS behaviours:
`indexOf` yields `-1` when the character is absent, and `slice` interprets a
negative end index as counting from the end of the string. -/

/-- JS `String.prototype.indexOf` for a single character: the index of the
first occurrence, or `-1` when absent. -/
def jsIndexOf : List Char → Char → Int
  | [], _ => -1
  | c :: l, d =>
      if c = d then 0
      else
        let r := jsIndexOf l d
        if r = -1 then -1 else r + 1

/-- JS `String.prototype.slice(0, e)`: a negative `e` counts from the end
(clamped at 0), a non-negative `e` is clamped at the length. -/
def jsSliceEnd (l : List Char) (e : Int) : List Char :=
  let len : Int := l.length
  let stop := if e < 0 then max (len + e) 0 else min e len
  l.take stop.toNat

/-- The string actually tested against the compiled template, from the
source: `file.name.slice(0, file.name.indexOf('.'))`. -/
def templateTestString (l : List Char) : List Char :=
  jsSliceEnd l (jsIndexOf l '.')

/-! ## The Dropzone (translated from the source)

The network is external: each upload's outcome enters the model as a
per-file `Option (String × String)` — `some (uuid, filename)` on success,
`none` (the JS `null` sentinel) on failure, preserving input order, exactly
the list `uploadFiles` resolves to. -/

/-- One entry of the dropzone's `getFilesFromEvent` result: the files that
passed the template filter, together with the `invalidTemplate` actions
dispatched for the rejected ones, in event order.  `re?` is the compiled
template matcher (`globToRegExp(filenameTemplate)`), absent when the
category has no template. -/
def getFilesFromEvent (re? : Option (List Char → Bool)) (ftId : Nat)
    (eventFiles : List (List Char)) : List (List Char) × List Action :=
  match re? with
  | none => (eventFiles, [])
  | some re =>
      eventFiles.foldr
        (fun n acc =>
          if re (templateTestString n) then (n :: acc.1, acc.2)
          else (acc.1, Action.invalidTemplate ftId ⟨n⟩ :: acc.2))
        ([], [])

/-- The `markUploaded` action creator as passed to `uploadFiles`; the
replace-uuid argument is ignored in add mode. -/
def markUploadedAction (ftId : Nat) (uuid filename : String)
    (_replaceUuid : Option String) : Action :=
  .markUploaded ftId uuid filename

/-- The `markModified` action creator as passed to `uploadFiles`; the
replace-uuid argument carries the replaced file's identity. -/
def markModifiedAction (ftId : Nat) (uuid filename : String)
    (replaceUuid : Option String) : Action :=
  .markModified ftId uuid filename (replaceUuid.getD "")

/-- Modelled from the spec: the upload coordinator `uploadFiles`
(`./util`, not in the snapshot).  Spec §4.2: for each file it issues an
upload request and, on success, dispatches the given mark action with the
server-assigned uuid and filename; on failure it dispatches a failure
event and the file is simply not added.  Upload entries are created on
drop-accept and destroyed on completion or failure (spec §3).  The
returned action list is the dispatch trace; the coordinator's return value
is the per-file result list itself. -/
def uploadFilesActions (markAction : Nat → String → String → Option String → Action)
    (ftId : Nat) (fileNames : List String)
    (results : List (Option (String × String))) (replaceUuid : Option String) :
    List Action :=
  (fileNames.zip results).foldr
    (fun fr acc =>
      Action.startUpload ftId fr.1 ::
        (match fr.2 with
         | some (uuid, filename) => markAction ftId uuid filename replaceUuid
         | none => Action.markFailed ftId) :: acc)
    []

/-- Translated from the source (`Dropzone`): the file to *modify* — only
when multiple files are not allowed and the single existing file is not in
the `added` state. -/
def fileToReplace (ft : FileType) : Option FMFile :=
  match ft.files with
  | [] => none
  | f :: _ => if !ft.allowMultipleFiles && !(f.state = .added) then some f else none

/-- Translated from the source (`Dropzone`): the file to *delete* after a
successful upload — only when multiple files are not allowed and the single
existing file is in the `added` or `modified` state. -/
def fileToDelete (ft : FileType) : Option FMFile :=
  match ft.files with
  | [] => none
  | f :: _ =>
      if !ft.allowMultipleFiles && (f.state = .added || f.state = .modified) then some f
      else none

/-- JS `rv[0] !== null`: false exactly when the first entry is the `null`
failure sentinel (an out-of-range `rv[0]` is `undefined`, which differs
from `null`). -/
def rvHeadNotNull : List (Option (String × String)) → Bool
  | [] => true
  | some _ :: _ => true
  | none :: _ => false

/-- The outcome of one `onDropAccepted` invocation: the dispatched action
trace, the coordinator's per-file results, and the uuids passed to
`deleteFile`. -/
structure DropOutcome where
  actions : List Action
  rv : List (Option (String × String))
  deleteCalls : List String
deriving DecidableEq, Repr

/-- Translated from the source (`Dropzone.onDropAccepted`): for single-file
categories only the first accepted file is kept (`splice(0, 1)`); the
coordinator runs with `markModified` and the existing file's uuid when
`fileToReplace` is set, otherwise with `markUploaded`; afterwards
`deleteFile(fileToDelete.uuid)` is issued only when there is a file to
delete and `rv[0] !== null`. -/
def onDropAccepted (ft : FileType) (acceptedFiles : List String)
    (results : List (Option (String × String))) : DropOutcome :=
  let accepted := if !ft.allowMultipleFiles then acceptedFiles.take 1 else acceptedFiles
  let results1 := if !ft.allowMultipleFiles then results.take 1 else results
  let ftr := fileToReplace ft
  let acts := uploadFilesActions
    (if ftr.isSome then markModifiedAction else markUploadedAction)
    ft.id accepted results1 (ftr.map FMFile.uuid)
  let deletes :=
    match fileToDelete ft with
    | some f => if rvHeadNotNull results1 then [f.uuid] else []
    | none => []
  ⟨acts, results1, deletes⟩

/-- Dropping on the category `ftId` of a full registry state: the dropzone
renders from the state's category and its dispatches are folded back into
the state; the second component is the list of `deleteFile` calls. -/
def runDrop (s : FMState) (ftId : Nat) (acceptedFiles : List String)
    (results : List (Option (String × String))) : FMState × List String :=
  match s.fileTypes.find? (fun t => t.id == ftId) with
  | none => (s, [])
  | some ft =>
      let dr := onDropAccepted ft acceptedFiles results
      (applyActions s dr.actions, dr.deleteCalls)

/-! ## The FileManager effects (translated from the source) -/

/-- Translated from the source (`FileManager`, first `useEffect`): when the
pristine flag transitions from false to true, every uuid returned by
`getUploadedFileUUIDs` is passed to `deleteFile` and the registry is reset
from the initial file types; otherwise nothing happens.  Returns the new
state and the `deleteFile` call list. -/
def pristineEffect (lastPristine pristine : Bool) (s : FMState)
    (initialFileTypes : List FileType) : FMState × List String :=
  if pristine && !lastPristine then
    (reducer s (.reset initialFileTypes), getUploadedFileUUIDs s)
  else (s, [])

/-- Translated from the source (`FileManager`, second `useEffect`): when
the state is dirty, `onChange(getFiles(state))` fires once and `clearDirty`
is dispatched immediately after.  Returns the list of values passed to
`onChange` and the new state. -/
def dirtyEffect (s : FMState) : List (List String) × FMState :=
  if s.isDirty then ([getFiles s], reducer s .clearDirty) else ([], s)

/-- A final-form validation field as rendered by `FileManager`: its name
and the message its `validate` callback produces. -/
structure ValidationField where
  fieldName : String
  message : String
deriving DecidableEq, Repr

/-- JS truthiness of `finalFieldName` (`!!finalFieldName`): false for
`null` and for the empty string. -/
def jsTruthyName : Option String → Bool
  | none => false
  | some s => !(s = "")

/-- Translated from the source (`FileManager`, render): the validation
fields attached to the surrounding form — an "uploading" field when
`finalFieldName` is truthy and `isUploading(state)`, and an "invalid" field
when `finalFieldName` is truthy and `getValidationError(state)` is
non-null. -/
def validationFields (finalFieldName : Option String) (s : FMState) :
    List ValidationField :=
  (if jsTruthyName finalFieldName && isUploading s then
    [⟨"_" ++ finalFieldName.getD "" ++ "_uploading", "Upload in progress"⟩]
  else []) ++
  (match getValidationError s with
   | some err =>
       if jsTruthyName finalFieldName then
         [⟨"_" ++ finalFieldName.getD "" ++ "_invalid", err⟩]
       else []
   | none => [])

/-! ## Helper lemmas -/

theorem applyActions_nil (s : FMState) : applyActions s [] = s := rfl

theorem applyActions_cons (s : FMState) (a : Action) (acts : List Action) :
    applyActions s (a :: acts) = applyActions (reducer s a) acts := rfl

/-- `updateFileType` maps the first category found under an id-respecting
update to its image. -/
theorem find?_updateFileType (fts : List FileType) (ftId : Nat)
    (g : FileType → FileType) (hg : ∀ t, (g t).id = t.id) (ft : FileType)
    (h : fts.find? (fun t => t.id == ftId) = some ft) :
    (updateFileType fts ftId g).find? (fun t => t.id == ftId) = some (g ft) := by
  induction fts with
  | nil => simp at h
  | cons t rest ih =>
      unfold updateFileType at *
      by_cases ht : t.id = ftId
      · rw [List.find?_cons_of_pos _ (by simpa using ht)] at h
        have hft : t = ft := by simpa using h
        subst hft
        simp only [List.map_cons, if_pos ht]
        rw [List.find?_cons_of_pos _ (by simp [hg t, ht])]
      · rw [List.find?_cons_of_neg _ (by simpa using ht)] at h
        simp only [List.map_cons, if_neg ht]
        rw [List.find?_cons_of_neg _ (by simpa using ht)]
        exact ih h

/-- A files-preserving category update leaves the registry's per-category
file lists unchanged. -/
theorem map_files_updateFileType (fts : List FileType) (ftId : Nat)
    (g : FileType → FileType) (hg : ∀ t, (g t).files = t.files) :
    (updateFileType fts ftId g).map FileType.files = fts.map FileType.files := by
  unfold updateFileType
  rw [List.map_map]
  apply List.map_congr_left
  intro t _
  by_cases ht : t.id = ftId <;> simp [ht, hg]

/-- Unfolding `runDrop` once the dropped-on category is located. -/
theorem runDrop_eq (s : FMState) (ft : FileType)
    (hfind : s.fileTypes.find? (fun t => t.id == ft.id) = some ft)
    (accepted : List String) (results : List (Option (String × String))) :
    runDrop s ft.id accepted results
      = (applyActions s (onDropAccepted ft accepted results).actions,
         (onDropAccepted ft accepted results).deleteCalls) := by
  unfold runDrop
  rw [hfind]

/-! ## The claims -/

/-- C1 (amended): for a single-file category whose one existing file is in
state `modified`, a successful upload invokes the coordinator in modify
mode (`markModified`) using the existing file's identity, issues exactly
one `deleteFile` call for the old file, and leaves exactly one file — with
state `modified` and the new identity — in the category. -/
theorem single_file_replace_modified (s : FMState) (ft : FileType)
    (f : FMFile) (u2 n2 newName : String)
    (hm : ft.allowMultipleFiles = false)
    (hf : ft.files = [f])
    (hs : f.state = .modified)
    (hfind : s.fileTypes.find? (fun t => t.id == ft.id) = some ft) :
    (onDropAccepted ft [newName] [some (u2, n2)]).actions
        = [.startUpload ft.id newName, .markModified ft.id u2 n2 f.uuid] ∧
    (runDrop s ft.id [newName] [some (u2, n2)]).2 = [f.uuid] ∧
    (((runDrop s ft.id [newName] [some (u2, n2)]).1).fileTypes.find?
        (fun t => t.id == ft.id)).map FileType.files
      = some [⟨u2, n2, .modified⟩] := by
  have hrep : fileToReplace ft = some f := by
    simp [fileToReplace, hf, hm, hs]
  have hdel : fileToDelete ft = some f := by
    simp [fileToDelete, hf, hm, hs]
  have hacts : (onDropAccepted ft [newName] [some (u2, n2)]).actions
      = [.startUpload ft.id newName, .markModified ft.id u2 n2 f.uuid] := by
    simp [onDropAccepted, hm, hrep, uploadFilesActions, markModifiedAction]
  refine ⟨hacts, ?_, ?_⟩
  · rw [runDrop_eq s ft hfind]
    simp [onDropAccepted, hm, hdel, rvHeadNotNull]
  · rw [runDrop_eq s ft hfind, hacts]
    rw [applyActions_cons, applyActions_cons, applyActions_nil]
    have h2 : (reducer (reducer s (.startUpload ft.id newName))
        (.markModified ft.id u2 n2 f.uuid)).fileTypes
        = updateFileType s.fileTypes ft.id (fun t =>
            { t with files := t.files.map fun x =>
                if x.uuid = f.uuid then ⟨u2, n2, .modified⟩ else x }) := rfl
    rw [h2, find?_updateFileType s.fileTypes ft.id
      (fun t => { t with files := t.files.map fun x =>
          if x.uuid = f.uuid then ⟨u2, n2, .modified⟩ else x })
      (fun t => rfl) ft hfind]
    simp [hf]

/-- C1 witness. -/
theorem single_file_replace_modified_witness :
    (onDropAccepted ⟨1, false, [⟨"U1", "a.jpg", .modified⟩], [], false⟩
        ["b.png"] [some ("U2", "b.png")]).actions
        = [.startUpload 1 "b.png", .markModified 1 "U2" "b.png" "U1"] ∧
    (runDrop ⟨[⟨1, false, [⟨"U1", "a.jpg", .modified⟩], [], false⟩], [], false⟩
        1 ["b.png"] [some ("U2", "b.png")]).2 = ["U1"] ∧
    (((runDrop ⟨[⟨1, false, [⟨"U1", "a.jpg", .modified⟩], [], false⟩], [], false⟩
        1 ["b.png"] [some ("U2", "b.png")]).1).fileTypes.find?
        (fun t => t.id == 1)).map FileType.files
      = some [⟨"U2", "b.png", .modified⟩] :=
  single_file_replace_modified
    ⟨[⟨1, false, [⟨"U1", "a.jpg", .modified⟩], [], false⟩], [], false⟩
    ⟨1, false, [⟨"U1", "a.jpg", .modified⟩], [], false⟩
    ⟨"U1", "a.jpg", .modified⟩ "U2" "b.png" "b.png" rfl rfl rfl (by decide)

/-- C1 counterexample: when the single existing file is in state `added`,
the coordinator is invoked in *add* mode (`markUploaded`, without the
existing file's identity), and the resulting category holds two files,
both in state `added` — not one `modified` file (the delete call for the
old file is still issued). -/
theorem single_file_added_uses_add_mode :
    (onDropAccepted ⟨1, false, [⟨"U1", "a.jpg", .added⟩], [], false⟩
        ["b.png"] [some ("U2", "b.png")]).actions
      = [.startUpload 1 "b.png", .markUploaded 1 "U2" "b.png"] ∧
    (((runDrop ⟨[⟨1, false, [⟨"U1", "a.jpg", .added⟩], [], false⟩], [], false⟩
        1 ["b.png"] [some ("U2", "b.png")]).1).fileTypes.map FileType.files)
      = [[⟨"U1", "a.jpg", .added⟩, ⟨"U2", "b.png", .added⟩]] ∧
    (runDrop ⟨[⟨1, false, [⟨"U1", "a.jpg", .added⟩], [], false⟩], [], false⟩
        1 ["b.png"] [some ("U2", "b.png")]).2 = ["U1"] :=
  ⟨rfl, rfl, rfl⟩

/-- C10: when the single existing file of a single-file category is in a
state other than `added` or `modified` (an initial file seeded from the
form's value), no `deleteFile` call is issued for any upload outcome, while
a successful replacement still runs in modify mode with the existing
file's identity. -/
theorem initial_file_replacement_no_delete (s : FMState) (ft : FileType)
    (f : FMFile) (u2 n2 newName : String)
    (accepted : List String) (results : List (Option (String × String)))
    (hm : ft.allowMultipleFiles = false)
    (hf : ft.files = [f])
    (h1 : f.state ≠ .added) (h2 : f.state ≠ .modified)
    (hfind : s.fileTypes.find? (fun t => t.id == ft.id) = some ft) :
    (runDrop s ft.id accepted results).2 = [] ∧
    (onDropAccepted ft [newName] [some (u2, n2)]).actions
      = [.startUpload ft.id newName, .markModified ft.id u2 n2 f.uuid] := by
  have hdel : fileToDelete ft = none := by
    simp [fileToDelete, hf, hm, h1, h2]
  have hrep : fileToReplace ft = some f := by
    simp [fileToReplace, hf, hm, h1]
  constructor
  · rw [runDrop_eq s ft hfind]
    simp [onDropAccepted, hm, hdel]
  · simp [onDropAccepted, hm, hrep, uploadFilesActions, markModifiedAction]

/-- C10 witness. -/
theorem initial_file_replacement_no_delete_witness :
    (runDrop ⟨[⟨1, false, [⟨"U1", "a.jpg", .initial⟩], [], false⟩], [], false⟩
        1 ["b.png"] [some ("U2", "b.png")]).2 = [] ∧
    (onDropAccepted ⟨1, false, [⟨"U1", "a.jpg", .initial⟩], [], false⟩
        ["b.png"] [some ("U2", "b.png")]).actions
      = [.startUpload 1 "b.png", .markModified 1 "U2" "b.png" "U1"] :=
  initial_file_replacement_no_delete
    ⟨[⟨1, false, [⟨"U1", "a.jpg", .initial⟩], [], false⟩], [], false⟩
    ⟨1, false, [⟨"U1", "a.jpg", .initial⟩], [], false⟩
    ⟨"U1", "a.jpg", .initial⟩ "U2" "b.png" "b.png" ["b.png"]
    [some ("U2", "b.png")] rfl rfl (by decide) (by decide) (by decide)

/-- C2: for a single-file category with an existing file, a failed
replacement upload (the `null` sentinel as per-file result) issues no
`deleteFile` call and leaves every category's file list — in particular
the original file's state and identity — unchanged. -/
theorem replacement_failure_preserves_file (s : FMState) (ft : FileType)
    (f : FMFile) (newName : String)
    (hm : ft.allowMultipleFiles = false)
    (hf : ft.files = [f])
    (hfind : s.fileTypes.find? (fun t => t.id == ft.id) = some ft) :
    (runDrop s ft.id [newName] [none]).2 = [] ∧
    ((runDrop s ft.id [newName] [none]).1).fileTypes = s.fileTypes := by
  unfold runDrop
  rw [hfind]
  constructor
  · cases hfd : fileToDelete ft <;>
      simp [onDropAccepted, hm, hfd, rvHeadNotNull]
  · simp [onDropAccepted, hm, uploadFilesActions, applyActions, reducer]

/-- C2 witness. -/
theorem replacement_failure_preserves_file_witness :
    (runDrop ⟨[⟨1, false, [⟨"U1", "a.jpg", .modified⟩], [], false⟩], [], false⟩
        1 ["b.png"] [none]).2 = [] ∧
    ((runDrop ⟨[⟨1, false, [⟨"U1", "a.jpg", .modified⟩], [], false⟩], [], false⟩
        1 ["b.png"] [none]).1).fileTypes
      = [⟨1, false, [⟨"U1", "a.jpg", .modified⟩], [], false⟩] :=
  replacement_failure_preserves_file
    ⟨[⟨1, false, [⟨"U1", "a.jpg", .modified⟩], [], false⟩], [], false⟩
    ⟨1, false, [⟨"U1", "a.jpg", .modified⟩], [], false⟩
    ⟨"U1", "a.jpg", .modified⟩ "b.png" rfl rfl (by decide)

/-- C5 (amended): a drop-accept on a single-file category whose file list
holds at most one file, none of it in state `added`, leaves the category
with at most one file, for every upload outcome. -/
theorem single_file_at_most_one (s : FMState) (ft : FileType)
    (accepted : List String) (results : List (Option (String × String)))
    (hm : ft.allowMultipleFiles = false)
    (hone : ft.files.length ≤ 1)
    (hnotadded : ∀ f ∈ ft.files, f.state ≠ .added)
    (hfind : s.fileTypes.find? (fun t => t.id == ft.id) = some ft) :
    ∃ fs, ((((runDrop s ft.id accepted results).1).fileTypes.find?
        (fun t => t.id == ft.id)).map FileType.files = some fs ∧ fs.length ≤ 1) := by
  rw [runDrop_eq s ft hfind]
  rcases accepted with _ | ⟨a, as⟩
  · refine ⟨ft.files, ?_, hone⟩
    simp [onDropAccepted, hm, uploadFilesActions, applyActions, hfind]
  rcases results with _ | ⟨r, rs⟩
  · refine ⟨ft.files, ?_, hone⟩
    simp [onDropAccepted, hm, uploadFilesActions, applyActions, hfind]
  rcases r with _ | ⟨u, n⟩
  · -- failed upload: only `startUpload` and `markFailed` are dispatched
    refine ⟨ft.files, ?_, hone⟩
    simp [onDropAccepted, hm, uploadFilesActions, applyActions, reducer, hfind]
  · rcases hfl : ft.files with _ | ⟨f, rest⟩
    · -- empty category: add mode appends the single new file
      have hrep : fileToReplace ft = none := by simp [fileToReplace, hfl]
      refine ⟨[⟨u, n, .added⟩], ?_, by simp⟩
      have hacts : (onDropAccepted ft (a :: as) (some (u, n) :: rs)).actions
          = [.startUpload ft.id a, .markUploaded ft.id u n] := by
        simp [onDropAccepted, hm, hrep, uploadFilesActions, markUploadedAction]
      rw [hacts, applyActions_cons, applyActions_cons, applyActions_nil]
      have hred : (reducer (reducer s (.startUpload ft.id a))
          (.markUploaded ft.id u n)).fileTypes
          = updateFileType s.fileTypes ft.id (fun t =>
              { t with files := t.files ++ [⟨u, n, .added⟩] }) := rfl
      rw [hred, find?_updateFileType s.fileTypes ft.id
        (fun t => { t with files := t.files ++ [⟨u, n, .added⟩] })
        (fun t => rfl) ft hfind]
      simp [hfl]
    · -- occupied category: modify mode replaces in place
      have hrest : rest = [] := by
        rcases rest with _ | _
        · rfl
        · simp [hfl] at hone
      subst hrest
      have hfadd : ¬f.state = .added := hnotadded f (by simp [hfl])
      have hrep : fileToReplace ft = some f := by
        simp [fileToReplace, hfl, hm, hfadd]
      have hacts : (onDropAccepted ft (a :: as) (some (u, n) :: rs)).actions
          = [.startUpload ft.id a, .markModified ft.id u n f.uuid] := by
        simp [onDropAccepted, hm, hrep, uploadFilesActions, markModifiedAction]
      refine ⟨[f].map (fun x => if x.uuid = f.uuid
          then ⟨u, n, .modified⟩ else x), ?_, by simp⟩
      rw [hacts, applyActions_cons, applyActions_cons, applyActions_nil]
      have hred : (reducer (reducer s (.startUpload ft.id a))
          (.markModified ft.id u n f.uuid)).fileTypes
          = updateFileType s.fileTypes ft.id (fun t =>
              { t with files := t.files.map fun x =>
                  if x.uuid = f.uuid then ⟨u, n, .modified⟩ else x }) := rfl
      rw [hred, find?_updateFileType s.fileTypes ft.id
        (fun t => { t with files := t.files.map fun x =>
            if x.uuid = f.uuid then ⟨u, n, .modified⟩ else x })
        (fun t => rfl) ft hfind]
      simp [hfl]

/-- C5 witness. -/
theorem single_file_at_most_one_witness :
    ∃ fs, ((((runDrop
        ⟨[⟨1, false, [⟨"U1", "a.jpg", .modified⟩], [], false⟩], [], false⟩
        1 ["b.png"] [some ("U2", "b.png")]).1).fileTypes.find?
        (fun t => t.id == 1)).map FileType.files = some fs ∧ fs.length ≤ 1) :=
  single_file_at_most_one
    ⟨[⟨1, false, [⟨"U1", "a.jpg", .modified⟩], [], false⟩], [], false⟩
    ⟨1, false, [⟨"U1", "a.jpg", .modified⟩], [], false⟩
    ["b.png"] [some ("U2", "b.png")] rfl (by decide) (by decide) (by decide)

/-- C5 counterexample: dropping a new file onto a single-file category
whose existing file is in state `added` leaves the category holding two
files after a successful upload — the invariant is not preserved by this
operation. -/
theorem single_file_invariant_violated :
    (((runDrop ⟨[⟨1, false, [⟨"U1", "a.jpg", .added⟩], [], false⟩], [], false⟩
        1 ["b.png"] [some ("U2", "b.png")]).1).fileTypes.map
          (fun t => t.files.length)) = [2] := rfl

/-- C3: on the pristine flag transitioning from false to true, the
`deleteFile` call list is exactly `getUploadedFileUUIDs` of the current
state (one call per file currently in state added/modified, across all
categories, in order) and the registry is reinitialized from the original
input value, with no uploads and dirty cleared. -/
theorem pristine_transition_resets (s : FMState) (initFTs : List FileType) :
    pristineEffect false true s initFTs
      = ({ fileTypes := initFTs, uploads := [], isDirty := false },
         getUploadedFileUUIDs s) := rfl

/-- C6: dispatching `reset` with given FileTypes yields exactly that
registry — file list derived from the input, dirty false, no pending
uploads. -/
theorem reset_reinitializes (s : FMState) (fts : List FileType) :
    reducer s (.reset fts)
      = { fileTypes := fts, uploads := [], isDirty := false } ∧
    getFiles (reducer s (.reset fts))
      = (fts.map fun ft => ft.files.map FMFile.uuid).flatten := ⟨rfl, rfl⟩

/-- C7: whenever the dirty flag is set, the controlled effect propagates
the derived file list outward exactly once via `onChange(getFiles(state))`,
immediately clears the dirty flag without touching the derived value, and
a repeated run of the effect on the resulting state propagates nothing. -/
theorem dirty_propagation (s : FMState) (h : s.isDirty = true) :
    (dirtyEffect s).1 = [getFiles s] ∧
    ((dirtyEffect s).2).isDirty = false ∧
    getFiles ((dirtyEffect s).2) = getFiles s ∧
    (dirtyEffect ((dirtyEffect s).2)).1 = [] := by
  simp [dirtyEffect, h, reducer, getFiles]

/-- C7 witness. -/
theorem dirty_propagation_witness :
    (dirtyEffect ⟨[], [], true⟩).1 = [getFiles ⟨[], [], true⟩] ∧
    ((dirtyEffect ⟨[], [], true⟩).2).isDirty = false ∧
    getFiles ((dirtyEffect ⟨[], [], true⟩).2) = getFiles ⟨[], [], true⟩ ∧
    (dirtyEffect ((dirtyEffect ⟨[], [], true⟩).2)).1 = [] :=
  dirty_propagation ⟨[], [], true⟩ rfl

/-- C8 (amended): provided the final-field name is set (non-null and
non-empty), the widget attaches a validation field to the surrounding form
exactly when an upload is in progress or a category has pending invalid
files; while uploading, the field surfaces the string
"Upload in progress". -/
theorem validation_fields_iff (fn : Option String) (s : FMState)
    (h : jsTruthyName fn = true) :
    ((validationFields fn s ≠ []) ↔
      (isUploading s = true ∨ (getValidationError s).isSome = true)) ∧
    (isUploading s = true →
      ValidationField.mk ("_" ++ fn.getD "" ++ "_uploading") "Upload in progress"
        ∈ validationFields fn s) := by
  unfold validationFields
  rw [h]
  constructor
  · cases he : getValidationError s <;> cases hu : isUploading s <;> simp [he, hu]
  · intro hu
    cases he : getValidationError s <;> simp [he, hu]

/-- C8 witness. -/
theorem validation_fields_iff_witness :
    ((validationFields (some "docs") ⟨[], [⟨1, "a.jpg", 0⟩], false⟩ ≠ []) ↔
      (isUploading ⟨[], [⟨1, "a.jpg", 0⟩], false⟩ = true ∨
        (getValidationError ⟨[], [⟨1, "a.jpg", 0⟩], false⟩).isSome = true)) ∧
    (isUploading ⟨[], [⟨1, "a.jpg", 0⟩], false⟩ = true →
      ValidationField.mk ("_" ++ (some "docs").getD "" ++ "_uploading")
          "Upload in progress"
        ∈ validationFields (some "docs") ⟨[], [⟨1, "a.jpg", 0⟩], false⟩) :=
  validation_fields_iff (some "docs") ⟨[], [⟨1, "a.jpg", 0⟩], false⟩ (by decide)

/-- C8 counterexample: with a null `finalFieldName` (its default), a state
with an upload in progress raises no validation field at all, so the
"exactly when uploading or invalid" equivalence fails as stated. -/
theorem validation_fields_missing_without_name :
    isUploading ⟨[], [⟨1, "a.jpg", 0⟩], false⟩ = true ∧
    validationFields none ⟨[], [⟨1, "a.jpg", 0⟩], false⟩ = [] := ⟨rfl, rfl⟩

/-- Closed form of `getFilesFromEvent` with a template: the accepted files
are those whose test string matches, and one `invalidTemplate` action is
dispatched per rejected file, in event order. -/
theorem getFilesFromEvent_eq (re : List Char → Bool) (ftId : Nat)
    (fs : List (List Char)) :
    getFilesFromEvent (some re) ftId fs
      = (fs.filter (fun n => re (templateTestString n)),
         (fs.filter (fun n => !re (templateTestString n))).map
           (fun n => Action.invalidTemplate ftId ⟨n⟩)) := by
  induction fs with
  | nil => rfl
  | cons n rest ih =>
      simp only [getFilesFromEvent, List.foldr_cons] at ih ⊢
      rw [ih]
      by_cases hn : re (templateTestString n) = true <;>
        simp [List.filter_cons, hn]

/-- A trace made of `invalidTemplate` actions only never changes any
category's file list. -/
theorem applyActions_invalidTemplates_files (acts : List Action)
    (h : ∀ a ∈ acts, ∃ i fn, a = .invalidTemplate i fn) (s : FMState) :
    (applyActions s acts).fileTypes.map FileType.files
      = s.fileTypes.map FileType.files := by
  induction acts generalizing s with
  | nil => rfl
  | cons a rest ih =>
      obtain ⟨i, fn, rfl⟩ := h a (List.mem_cons_self a rest)
      rw [applyActions_cons, ih (fun b hb => h b (List.mem_cons_of_mem _ hb))]
      have hr : (reducer s (.invalidTemplate i fn)).fileTypes
          = updateFileType s.fileTypes i (fun ft =>
              { ft with invalidFiles := ft.invalidFiles ++ [fn] }) := rfl
      rw [hr]
      exact map_files_updateFileType s.fileTypes i
        (fun ft => { ft with invalidFiles := ft.invalidFiles ++ [fn] })
        (fun t => rfl)

/-- C4: a dropped file whose test string fails the compiled template is
excluded from the accepted files, dispatches exactly one `invalidTemplate`
action carrying the category id and the filename per rejected attempt
(occurrence in the drop), and the dispatched trace never adds a File to
any category. -/
theorem invalid_template_rejected (re : List Char → Bool) (ftId : Nat)
    (eventFiles : List (List Char)) (n : List Char)
    (hmem : n ∈ eventFiles)
    (hfail : re (templateTestString n) = false) :
    n ∉ (getFilesFromEvent (some re) ftId eventFiles).1 ∧
    ((getFilesFromEvent (some re) ftId eventFiles).2.count
        (.invalidTemplate ftId ⟨n⟩)) = eventFiles.count n ∧
    ∀ s : FMState,
      ((applyActions s (getFilesFromEvent (some re) ftId eventFiles).2).fileTypes.map
        FileType.files) = s.fileTypes.map FileType.files := by
  rw [getFilesFromEvent_eq]
  refine ⟨?_, ?_, ?_⟩
  · intro hin
    rw [List.mem_filter] at hin
    rw [hfail] at hin
    exact Bool.false_ne_true hin.2
  · rw [List.count_eq_countP, List.countP_map]
    have hpt : ((fun x => x == Action.invalidTemplate ftId ⟨n⟩) ∘
        (fun m => Action.invalidTemplate ftId ⟨m⟩))
        = fun m => m == n := by
      funext m
      by_cases hmn : m = n <;>
        simp [hmn, Function.comp, String.ext_iff]
    rw [hpt, ← List.count_eq_countP, List.count_filter (by simp [hfail])]
  · exact applyActions_invalidTemplates_files _
      (fun a ha => by
        obtain ⟨m, _, rfl⟩ := List.mem_map.1 ha
        exact ⟨ftId, ⟨m⟩, rfl⟩)

/-- C4 witness. -/
theorem invalid_template_rejected_witness :
    (['a', '.', 'x'] ∈ [['a', '.', 'x']]) ∧
    (fun _ : List Char => false) (templateTestString ['a', '.', 'x']) = false ∧
    (['a', '.', 'x'] ∉
      (getFilesFromEvent (some fun _ => false) 1 [['a', '.', 'x']]).1 ∧
    ((getFilesFromEvent (some fun _ => false) 1 [['a', '.', 'x']]).2.count
        (.invalidTemplate 1 ⟨['a', '.', 'x']⟩))
      = [['a', '.', 'x']].count ['a', '.', 'x'] ∧
    ∀ s : FMState,
      ((applyActions s
        (getFilesFromEvent (some fun _ => false) 1 [['a', '.', 'x']]).2).fileTypes.map
        FileType.files) = s.fileTypes.map FileType.files) :=
  ⟨by decide, rfl,
    invalid_template_rejected (fun _ => false) 1 [['a', '.', 'x']]
      ['a', '.', 'x'] (by decide) rfl⟩

/-- `jsIndexOf` yields `-1` exactly on absent characters (absent
direction). -/
theorem jsIndexOf_eq_neg_one (l : List Char) (c : Char) (h : c ∉ l) :
    jsIndexOf l c = -1 := by
  induction l with
  | nil => rfl
  | cons a l ih =>
      have ha : ¬a = c := fun e => h (e ▸ List.mem_cons_self a l)
      have hr : jsIndexOf l c = -1 := ih fun hm => h (List.mem_cons_of_mem a hm)
      simp [jsIndexOf, ha, hr]

/-- A non-`-1` `jsIndexOf` result is non-negative. -/
theorem jsIndexOf_nonneg (l : List Char) (c : Char)
    (h : jsIndexOf l c ≠ -1) : 0 ≤ jsIndexOf l c := by
  induction l with
  | nil => simp [jsIndexOf] at h
  | cons a l ih =>
      simp only [jsIndexOf] at h ⊢
      by_cases ha : a = c
      · simp [ha]
      · rw [if_neg ha] at h ⊢
        by_cases hr : jsIndexOf l c = -1
        · rw [if_pos hr] at h
          exact absurd rfl h
        · rw [if_neg hr]
          have := ih hr
          omega

/-- `jsIndexOf` yields `-1` exactly on absent characters (present
direction). -/
theorem jsIndexOf_ne_neg_one (l : List Char) (c : Char) (h : c ∈ l) :
    jsIndexOf l c ≠ -1 := by
  induction l with
  | nil => simp at h
  | cons a l ih =>
      simp only [jsIndexOf]
      by_cases ha : a = c
      · simp [ha]
      · rw [if_neg ha]
        have hc : c ∈ l := by
          rcases List.mem_cons.1 h with h1 | h1
          · exact absurd h1.symm ha
          · exact h1
        by_cases hr : jsIndexOf l c = -1
        · exact absurd hr (ih hc)
        · rw [if_neg hr]
          have := jsIndexOf_nonneg l c hr
          omega

/-- JS `slice(0, -1)` removes the last element. -/
theorem jsSliceEnd_neg_one (l : List Char) : jsSliceEnd l (-1) = l.dropLast := by
  simp only [jsSliceEnd]
  rw [List.dropLast_eq_take, if_pos (by norm_num)]
  congr 1
  omega

/-- Slicing a cons at a positive bound keeps the head and slices the tail
one short. -/
theorem jsSliceEnd_cons_succ (c : Char) (l : List Char) (e : Int)
    (he : 0 ≤ e) : jsSliceEnd (c :: l) (e + 1) = c :: jsSliceEnd l e := by
  simp only [jsSliceEnd]
  rw [if_neg (by omega), if_neg (by omega)]
  have h : (min (e + 1) ((c :: l).length : Int)).toNat
      = (min e (l.length : Int)).toNat + 1 := by
    simp only [List.length_cons]
    push_cast
    omega
  rw [h, List.take_succ_cons]

/-- C9: the string tested against the compiled template is the part of the
filename strictly before the first dot when the name contains a dot, and
the name with its last character removed when it contains no dot — the
extension never participates in the match. -/
theorem template_test_string_spec (l : List Char) :
    templateTestString l
      = if '.' ∈ l then l.takeWhile (fun c => c != '.') else l.dropLast := by
  induction l with
  | nil => rfl
  | cons c l ih =>
      by_cases hc : c = '.'
      · subst hc
        rw [if_pos (List.mem_cons_self _ _)]
        simp only [templateTestString, jsIndexOf, if_pos rfl]
        simp [jsSliceEnd, List.takeWhile_cons]
      · by_cases hl : '.' ∈ l
        · have hne := jsIndexOf_ne_neg_one l '.' hl
          have hnn := jsIndexOf_nonneg l '.' hne
          have hidx : jsIndexOf (c :: l) '.' = jsIndexOf l '.' + 1 := by
            simp only [jsIndexOf]
            rw [if_neg hc, if_neg hne]
          rw [if_pos (List.mem_cons_of_mem c hl)]
          rw [List.takeWhile_cons, if_pos (by simp [hc])]
          unfold templateTestString at ih ⊢
          rw [hidx, jsSliceEnd_cons_succ c l _ hnn, ih, if_pos hl]
        · have hnc : '.' ∉ c :: l := by
            intro hm
            rcases List.mem_cons.1 hm with h1 | h1
            · exact hc h1.symm
            · exact hl h1
          have hidx : jsIndexOf (c :: l) '.' = -1 := by
            simp only [jsIndexOf]
            rw [if_neg hc, if_pos (jsIndexOf_eq_neg_one l '.' hl)]
          rw [if_neg hnc]
          unfold templateTestString
          rw [hidx, jsSliceEnd_neg_one]

end FileManager
